import Mathlib

/-!
Verification of the realtime audio engine core (DSP graph, oscillator and
sampler processors) against its natural-language specification.

The embedding is shallow: the Rust code of `src/realtime/dsp_graph.rs`,
`src/realtime/processor.rs`, `src/dsp/oscillator/processor.rs` and
`src/dsp/sampler/processor.rs` is translated into executable Lean
definitions.  Machine floats (`f32`/`f64`) are modelled as rationals; all
floating-point values appearing in the proved statements are exactly
representable, so the modelled arithmetic agrees with the source on those
inputs.  Modules of the repository that are not part of the provided
sources (the buffer pool, the generic graph, the parameter/automation
module, the `Dsp` node wrapper and the topological sort) are modelled from
the specification text, as indicated on each definition.
-/

set_option autoImplicit false

namespace AudioEngine

/-- Node / parameter identifier (`src/commands/id.rs`: `Id(usize)`). -/
abbrev Id := Nat

/-- Endpoint kind.  Modelled from the spec: `graph/endpoint.rs` is absent
from the sources; the spec says kind ∈ \x7bOutput\x7d. -/
inductive EndpointType where
  | output
deriving DecidableEq, Repr

/-- Endpoint `(node_id, kind)`.  Modelled from the spec: `graph/endpoint.rs`
is absent from the sources. -/
structure Endpoint where
  dspId : Id
  kind : EndpointType
deriving DecidableEq, Repr

/-- Audio samples, `channel → frame → value`.  Modelled from the spec: the
`buffer` module is absent from the sources; `f32` samples are modelled as
rationals. -/
def Buf := Nat → Nat → ℚ

/-- The all-zero buffer contents (`clear`). -/
def zeroBuf : Buf := fun _ _ => 0

/-- `AudioBuffer::add_from`: add `src` into `dst` on
`[0, nch) × [0, nfr)`.  Modelled from the spec (§3, AudioBuffer
capability). -/
def addFrom (dst src : Buf) (nch nfr : Nat) : Buf :=
  fun ch fr => if ch < nch ∧ fr < nfr then dst ch fr + src ch fr else dst ch fr

/-- An audio buffer together with its dimensions.  Modelled from the spec:
the `buffer` module is absent from the sources. -/
structure AudioBuf where
  data : Buf
  numChannels : Nat
  numFrames : Nat
  sampleRate : Nat

/-- The buffer pool.  Modelled from the spec (§4.1): `graph/buffer_pool.rs`
is absent from the sources.  `free` holds the available buffers, `assigned`
the endpoint-tagged buffers, `capacity` the construction-time buffer
count. -/
structure BufferPool where
  free : List Buf
  assigned : List (Endpoint × Buf)
  capacity : Nat

/-- `BufferPool::get_unassigned_buffer`: take a free buffer, zeroed.
Modelled from the spec (§4.1: `take_unassigned() → Buffer | fail` returns a
zeroed buffer). -/
def BufferPool.getUnassignedBuffer (p : BufferPool) : Option (Buf × BufferPool) :=
  match p.free with
  | [] => none
  | _ :: rest => some (zeroBuf, { p with free := rest })

/-- Remove the first buffer tagged with endpoint `e` from an assignment
list, returning it and the remaining list. -/
def removeAssigned : List (Endpoint × Buf) → Endpoint → Option (Buf × List (Endpoint × Buf))
  | [], _ => none
  | (e', b) :: rest, e =>
    if e' = e then some (b, rest)
    else (removeAssigned rest e).map (fun pr => (pr.1, (e', b) :: pr.2))

/-- The buffer a later `take_assigned(endpoint)` would return, without
removing it. -/
def lookupAssigned (l : List (Endpoint × Buf)) (e : Endpoint) : Option Buf :=
  (removeAssigned l e).map Prod.fst

/-- `BufferPool::get_assigned_buffer`: detach and return the buffer tagged
with `e`, still containing its samples.  Modelled from the spec (§4.1). -/
def BufferPool.getAssignedBuffer (p : BufferPool) (e : Endpoint) : Option (Buf × BufferPool) :=
  (removeAssigned p.assigned e).map fun x => (x.1, { p with assigned := x.2 })

/-- `BufferPool::return_buffer`: mark a buffer free.  Modelled from the
spec (§4.1). -/
def BufferPool.returnBuffer (p : BufferPool) (b : Buf) : BufferPool :=
  { p with free := b :: p.free }

/-- `BufferPool::return_buffer_with_assignment`: return a buffer tagged
with `e`.  Modelled from the spec (§4.1). -/
def BufferPool.returnBufferWithAssignment (p : BufferPool) (b : Buf) (e : Endpoint) : BufferPool :=
  { p with assigned := (e, b) :: p.assigned }

/-- `BufferPool::clear_assignments`: drop all tags; the buffers stay in
the pool.  Modelled from the spec (§4.1). -/
def BufferPool.clearAssignments (p : BufferPool) : BufferPool :=
  { p with free := p.free ++ p.assigned.map Prod.snd, assigned := [] }

/-- `BufferPool::all_buffers_are_available`: every buffer is free and
untagged.  Modelled from the spec (§4.1: `all_free()`). -/
def BufferPool.allBuffersAreAvailable (p : BufferPool) : Bool :=
  p.assigned.isEmpty && (p.free.length == p.capacity)

/-- A freshly constructed pool of `n` buffers, all free and untagged. -/
def freshPool (n : Nat) : BufferPool :=
  { free := List.replicate n zeroBuf, assigned := [], capacity := n }

/-- Number of buffers currently accounted for by the pool state. -/
def BufferPool.size (p : BufferPool) : Nat :=
  p.free.length + p.assigned.length

/-- Shape of an automation event.  Modelled from the spec (§4.2): the
`parameter` module is absent from the sources. -/
inductive EventShape where
  | step
  | linear
deriving DecidableEq, Repr

/-- An automation event `{time, target, shape}`.  Modelled from the spec
(§4.2). -/
structure AutomationEvent where
  time : ℚ
  target : ℚ
  shape : EventShape
deriving DecidableEq, Repr

/-- A parameter: an initial value and an ordered event list.  Modelled from
the spec (§4.2). -/
structure DspParameter where
  initialValue : ℚ
  events : List AutomationEvent
deriving DecidableEq, Repr

/-- Find the last event whose time is at or before `t` in an ordered event
list, together with the events after it.  Modelled from the spec (§4.2,
step 1). -/
def findAnchor : List AutomationEvent → ℚ → Option (AutomationEvent × List AutomationEvent)
  | [], _ => none
  | e :: rest, t =>
    if e.time ≤ t then
      match findAnchor rest t with
      | some pr => some pr
      | none => some (e, rest)
    else none

/-- `Parameter::get_value_at_time`: piecewise-linear evaluation of the
automation timeline.  Modelled from the spec (§4.2, steps 1-4). -/
def DspParameter.getValueAtTime (p : DspParameter) (t : ℚ) : ℚ :=
  match findAnchor p.events t with
  | none => p.initialValue
  | some (e, rest) =>
    match e.shape, rest with
    | EventShape.step, _ => e.target
    | EventShape.linear, [] => e.target
    | EventShape.linear, e2 :: _ =>
      match e2.shape with
      | EventShape.step => e.target
      | EventShape.linear =>
        e.target + (e2.target - e.target) * ((t - e.time) / (e2.time - e.time))

/-- A parameter change request (`ParameterChangeRequest { dsp_id,
parameter_id, event }`).  Modelled from the spec (§4.2): `commands/command.rs`
is absent from the sources. -/
structure ParameterChangeRequest where
  dspId : Id
  parameterId : Id
  event : AutomationEvent

/-- A Dsp node.  Modelled from the spec (§3): `graph/dsp.rs` is absent from
the sources.  A node owns an id, a processor capability and a map
`Id → Parameter`.  The processor (`process_audio`) is modelled as a
function from processor state, input-buffer contents, start time, frame
count, channel count, sample rate and parameters to the contents it leaves
in its zeroed output slice, together with its updated state; the state of
every processor in a graph lives in a single type `S`. -/
structure Dsp (S : Type) where
  id : Id
  run : S → Buf → ℚ → Nat → Nat → Nat → List (Id × DspParameter) → Buf × S
  parameters : List (Id × DspParameter)

/-- Append an automation event to the timeline of parameter `pid` inside a
parameter map. -/
def pushEvent : List (Id × DspParameter) → Id → AutomationEvent → List (Id × DspParameter)
  | [], _, _ => []
  | (i, p) :: rest, pid, ev =>
    if i = pid then (i, { p with events := p.events ++ [ev] }) :: rest
    else (i, p) :: pushEvent rest pid ev

/-- `Dsp::request_parameter_change`: append the event to the addressed
parameter's timeline.  Modelled from the spec (§4.2: events are pushed from
the control side; the timeline is append-only). -/
def Dsp.requestParameterChange {S : Type} (d : Dsp S) (req : ParameterChangeRequest) : Dsp S :=
  { d with parameters := pushEvent d.parameters req.parameterId req.event }

/-- A directed connection between a source endpoint and a destination
endpoint.  Modelled from the spec (§3): `graph/connection.rs` is absent
from the sources. -/
structure Connection where
  source : Endpoint
  destination : Endpoint
deriving DecidableEq, Repr

/-- `Connection::new(source_id, destination_id)` as used by the sources. -/
def Connection.ofIds (s d : Id) : Connection :=
  ⟨⟨s, EndpointType.output⟩, ⟨d, EndpointType.output⟩⟩

/-- The DSP graph (`src/realtime/dsp_graph.rs`: `DspGraph`).  The generic
`Graph` container and the `TopologicalSort` are absent from the sources and
are modelled from the spec: nodes are an `Id → Dsp` association list, edges
a connection list, and `sortFn` stands for the topological sort, whose
result the spec constrains only to be a linear extension of the graph
(§4.3: any tie-break order is valid).  `sorted` is the cached order. -/
structure DspGraph (S : Type) where
  nodes : List (Id × Dsp S)
  edges : List Connection
  outputEndpoint : Option Endpoint
  sorted : List Id
  sortFn : List (Id × Dsp S) → List Connection → List Id
  graphNeedsSort : Bool
  pool : BufferPool
  maximumNumberOfChannels : Nat
  maximumNumberOfFrames : Nat
  sampleRate : Nat

/-- `Graph::get_node`: look a node up by id. -/
def DspGraph.getNode {S : Type} (g : DspGraph S) (i : Id) : Option (Dsp S) :=
  List.lookup i g.nodes

/-- Replace the node with id `tid` by `f` applied to it. -/
def updateNode {S : Type} : List (Id × Dsp S) → Id → (Dsp S → Dsp S) → List (Id × Dsp S)
  | [], _, _ => []
  | (i, d) :: rest, tid, f =>
    if i = tid then (i, f d) :: rest else (i, d) :: updateNode rest tid f

/-- `DspGraph::add_dsp` (`dsp_graph.rs` lines 76-80). -/
def DspGraph.addDsp {S : Type} (g : DspGraph S) (d : Dsp S) : DspGraph S :=
  { g with nodes := (d.id, d) :: g.nodes, graphNeedsSort := true }

/-- `DspGraph::remove_dsp` (`dsp_graph.rs` lines 93-101); the removed node
goes to the garbage-collector channel, which the model elides. -/
def DspGraph.removeDsp {S : Type} (g : DspGraph S) (i : Id) : DspGraph S :=
  { g with nodes := g.nodes.filter (fun x => !(x.1 == i)), graphNeedsSort := true }

/-- `DspGraph::request_parameter_change` (`dsp_graph.rs` lines 103-107):
forward to the node when it exists, otherwise do nothing. -/
def DspGraph.requestParameterChange {S : Type} (g : DspGraph S)
    (req : ParameterChangeRequest) : DspGraph S :=
  match List.lookup req.dspId g.nodes with
  | some _ =>
    { g with nodes := updateNode g.nodes req.dspId (fun d => d.requestParameterChange req) }
  | none => g

/-- `DspGraph::add_connection` (`dsp_graph.rs` lines 109-119). -/
def DspGraph.addConnection {S : Type} (g : DspGraph S) (c : Connection) : DspGraph S :=
  { g with edges := g.edges ++ [c], graphNeedsSort := true }

/-- `DspGraph::remove_connection` (`dsp_graph.rs` lines 121-126): remove
the edge identified by its source and destination ids. -/
def DspGraph.removeConnection {S : Type} (g : DspGraph S) (c : Connection) : DspGraph S :=
  { g with
    edges := g.edges.filter
      (fun c' => !(c'.source.dspId == c.source.dspId && c'.destination.dspId == c.destination.dspId)),
    graphNeedsSort := true }

/-- `DspGraph::connect_to_output` (`dsp_graph.rs` lines 128-130). -/
def DspGraph.connectToOutput {S : Type} (g : DspGraph S) (e : Endpoint) : DspGraph S :=
  { g with outputEndpoint := some e }

/-- `Graph::node_iter(dsp_id, Direction::Incoming)`: ids of the nodes with
an edge into `i`.  Modelled from the spec (§3: the graph supports iterating
incoming neighbors). -/
def DspGraph.incomingNodes {S : Type} (g : DspGraph S) (i : Id) : List Id :=
  (g.edges.filter (fun c => c.destination.dspId == i)).map (fun c => c.source.dspId)

/-- `DspGraph::sort_graph` (`dsp_graph.rs` lines 86-91): recompute the
cached order when the graph is dirty. -/
def DspGraph.sortGraph {S : Type} (g : DspGraph S) : DspGraph S :=
  if g.graphNeedsSort then
    { g with sorted := g.sortFn g.nodes g.edges, graphNeedsSort := false }
  else g

/-- `DspGraph::mix_in_endpoint` (`dsp_graph.rs` lines 132-151): when a
buffer is tagged with `e`, sum it into `out` and re-tag it. -/
def mixInEndpoint (pool : BufferPool) (e : Endpoint) (out : Buf) (nch nfr : Nat) :
    BufferPool × Buf :=
  match pool.getAssignedBuffer e with
  | some (b, pool1) => (pool1.returnBufferWithAssignment b e, addFrom out b nch nfr)
  | none => (pool, out)

/-- `DspGraph::copy_output_from_dependencies` (`dsp_graph.rs` lines
183-201): sum the tagged output of every incoming neighbor into the
destination buffer. -/
def copyOutputFromDependencies {S : Type} (pool : BufferPool) (g : DspGraph S) (i : Id)
    (dest : Buf) (nch nfr : Nat) : BufferPool × Buf :=
  (g.incomingNodes i).foldl
    (fun acc src => mixInEndpoint acc.1 ⟨src, EndpointType.output⟩ acc.2 nch nfr)
    (pool, dest)

/-- `DspGraph::process_dsp` (`dsp_graph.rs` lines 203-238): take two
unassigned buffers, mix the dependencies into the input, run the node's
processor on the zeroed output slice of `nfr` frames, return the input
buffer and tag the output buffer with `(dsp_id, Output)`.  `none` models a
failing `unwrap` on pool exhaustion. -/
def processDsp {S : Type} (pool : BufferPool) (g : DspGraph S) (st : S) (i : Id)
    (nfr nch : Nat) (t : ℚ) : Option (BufferPool × S) :=
  match pool.getUnassignedBuffer with
  | none => none
  | some (nodeIn, pool1) =>
    match pool1.getUnassignedBuffer with
    | none => none
    | some (_nodeOut, pool2) =>
      let mixed := copyOutputFromDependencies pool2 g i nodeIn nch nfr
      let ran :=
        match g.getNode i with
        | some d => d.run st (mixed.2) t nfr nch g.sampleRate d.parameters
        | none => (zeroBuf, st)
      let nodeOutFinal : Buf := fun ch fr => if fr < nfr then ran.1 ch fr else 0
      let pool4 := (mixed.1).returnBuffer (mixed.2)
      some (pool4.returnBufferWithAssignment nodeOutFinal ⟨i, EndpointType.output⟩, ran.2)

/-- `DspGraph::process_dsps` (`dsp_graph.rs` lines 170-181): process every
node in the cached topological order. -/
def processDsps {S : Type} (pool : BufferPool) (g : DspGraph S) (st : S)
    (nfr nch : Nat) (t : ℚ) : Option (BufferPool × S) :=
  g.sorted.foldl
    (fun acc i => acc.bind (fun r => processDsp r.1 g r.2 i nfr nch t))
    (some (pool, st))

/-- `DspGraph::write_to_output` (`dsp_graph.rs` lines 153-168): when an
output endpoint is set, sum its tagged buffer into the external buffer. -/
def writeToOutput {S : Type} (pool : BufferPool) (g : DspGraph S) (out : Buf)
    (nch nfr : Nat) : BufferPool × Buf :=
  match g.outputEndpoint with
  | some e => mixInEndpoint pool e out nch nfr
  | none => (pool, out)

/-- `DspGraph::process` (`dsp_graph.rs` lines 61-74): clip the channel and
frame counts to the pool maxima, re-sort if dirty, process every node,
write the output endpoint's buffer into the external buffer and clear the
assignments.  The final `assert!(all_buffers_are_available())` is the
subject of theorem `dspGraph_process_pool_all_free`. -/
def DspGraph.process {S : Type} (g : DspGraph S) (st : S) (out : AudioBuf) (t : ℚ) :
    Option (DspGraph S × S × AudioBuf) :=
  let nch := min out.numChannels g.maximumNumberOfChannels
  let nfr := min out.numFrames g.maximumNumberOfFrames
  let g1 := g.sortGraph
  match processDsps g1.pool g1 st nfr nch t with
  | none => none
  | some (pool1, st1) =>
    let written := writeToOutput pool1 g1 out.data nch nfr
    let pool3 := (written.1).clearAssignments
    some ({ g1 with pool := pool3 }, st1, { out with data := written.2 })

/-- `MAXIMUM_NUMBER_OF_FRAMES` (`src/realtime/processor.rs` line 11). -/
def maximumNumberOfFramesPerChunk : Nat := 512

/-- The command set (control → audio).  Modelled from the spec (§6):
`commands/command.rs` is absent from the sources; the variants mirror the
match in `Processor::process_commands` (`processor.rs` lines 86-106). -/
inductive Command (S : Type) where
  | start
  | stop
  | addDsp (d : Dsp S)
  | removeDsp (i : Id)
  | parameterValueChange (req : ParameterChangeRequest)
  | addConnection (c : Connection)
  | removeConnection (c : Connection)
  | connectToOutput (e : Endpoint)

/-- The position-notification timer.  Modelled from the spec (§4.7 step 6):
`realtime/periodic_notification.rs` is absent from the sources; a counter
accumulates rendered samples and fires each time it reaches
`sample_rate / hz` samples. -/
structure PeriodicNotificationState where
  samplesPerInterval : ℚ
  accumulated : ℚ

/-- `PeriodicNotification::increment`: account for `n` rendered samples and
report whether the timer elapsed.  Modelled from the spec (§4.7 step 6). -/
def periodicIncrement (pn : PeriodicNotificationState) (n : Nat) :
    Bool × PeriodicNotificationState :=
  let acc := pn.accumulated + n
  if pn.samplesPerInterval ≤ acc then
    (true, { pn with accumulated := acc - pn.samplesPerInterval })
  else
    (false, { pn with accumulated := acc })

/-- The audio-callback processor state (`src/realtime/processor.rs`:
`Processor`).  The command and notification channels are modelled as the
drained command list passed to `Processor.process` and the returned
notification. -/
structure ProcessorState (S : Type) where
  started : Bool
  sampleRate : Nat
  samplePosition : Nat
  graph : DspGraph S
  positionNotification : PeriodicNotificationState

/-- One arm of `Processor::process_commands` (`processor.rs` lines
86-106). -/
def applyCommand {S : Type} (p : ProcessorState S) : Command S → ProcessorState S
  | Command.start => { p with started := true }
  | Command.stop => { p with started := false }
  | Command.addDsp d => { p with graph := p.graph.addDsp d }
  | Command.removeDsp i => { p with graph := p.graph.removeDsp i }
  | Command.parameterValueChange req => { p with graph := p.graph.requestParameterChange req }
  | Command.addConnection c => { p with graph := p.graph.addConnection c }
  | Command.removeConnection c => { p with graph := p.graph.removeConnection c }
  | Command.connectToOutput e => { p with graph := p.graph.connectToOutput e }

/-- `Processor::current_time` (`processor.rs` lines 120-122):
`sample_position / sample_rate` seconds. -/
def currentTime (samplePosition sampleRate : Nat) : ℚ :=
  (samplePosition : ℚ) / (sampleRate : ℚ)

/-- `AudioBufferSlice::new(buffer, offset, n)`: a view of frames
`[offset, offset + n)`.  Modelled from the spec (§3: a slice view restricts
frames without copying). -/
def sliceOf (out : AudioBuf) (offset n : Nat) : AudioBuf :=
  { data := fun ch fr => out.data ch (offset + fr)
    numChannels := out.numChannels
    numFrames := n
    sampleRate := out.sampleRate }

/-- Write the contents of a processed slice back into its parent buffer
(writes through a slice pass through to the underlying buffer). -/
def writeBack (out : AudioBuf) (offset n : Nat) (s : AudioBuf) : AudioBuf :=
  { out with
    data := fun ch fr =>
      if offset ≤ fr ∧ fr < offset + n then s.data ch (fr - offset) else out.data ch fr }

/-- The loop of `Processor::process_graph` (`processor.rs` lines 48-65):
slice the output into chunks of at most 512 frames and run
`DspGraph::process` on each with the one timestamp `t` computed before the
loop.  The fuel argument bounds the iteration count; each iteration
consumes at least one frame, so a fuel of `out.numFrames` is sufficient. -/
def processGraphAux {S : Type} (t : ℚ) :
    Nat → DspGraph S → S → AudioBuf → Nat → Option (DspGraph S × S × AudioBuf)
  | 0, g, st, out, _ => some (g, st, out)
  | fuel + 1, g, st, out, offset =>
    if offset < out.numFrames then
      let n := min (out.numFrames - offset) maximumNumberOfFramesPerChunk
      match DspGraph.process g st (sliceOf out offset n) t with
      | none => none
      | some (g1, st1, s1) =>
        processGraphAux t fuel g1 st1 (writeBack out offset n s1) (offset + n)
    else some (g, st, out)

/-- `Processor::process_graph` (`processor.rs` lines 48-65): the timestamp
is computed once, before the loop. -/
def processGraph {S : Type} (p : ProcessorState S) (st : S) (out : AudioBuf) :
    Option (ProcessorState S × S × AudioBuf) :=
  let t := currentTime p.samplePosition p.sampleRate
  (processGraphAux t out.numFrames p.graph st out 0).map
    (fun r => ({ p with graph := r.1 }, r.2.1, r.2.2))

/-- `Processor::process` (`processor.rs` lines 69-82, `AudioProcess`
implementation): clear the output, drain the command channel, return if
not started, otherwise render the graph, advance `sample_position` and
possibly emit a position notification (the optional rational in the
result). -/
def processorProcess {S : Type} (p : ProcessorState S) (st : S) (cmds : List (Command S))
    (out : AudioBuf) : Option (ProcessorState S × S × AudioBuf × Option ℚ) :=
  let out0 := { out with data := fun _ _ => 0 }
  let p1 := cmds.foldl applyCommand p
  if p1.started then
    match processGraph p1 st out0 with
    | none => none
    | some (p2, st2, out2) =>
      let p3 := { p2 with samplePosition := p2.samplePosition + out.numFrames }
      let fired := periodicIncrement p3.positionNotification out.numFrames
      let p4 := { p3 with positionNotification := fired.2 }
      some (p4, st2, out2,
        if fired.1 then some (currentTime p4.samplePosition p4.sampleRate) else none)
  else some (p1, st, out0, none)

/-- The sequence of `(offset, num_frames, timestamp)` triples with which
the loop of `Processor::process_graph` (`processor.rs` lines 48-65) invokes
`DspGraph::process`; same fuel discipline as `processGraphAux`. -/
def processGraphCallsAux (t : ℚ) (total : Nat) : Nat → Nat → List (Nat × Nat × ℚ)
  | 0, _ => []
  | fuel + 1, offset =>
    if offset < total then
      let n := min (total - offset) maximumNumberOfFramesPerChunk
      (offset, n, t) :: processGraphCallsAux t total fuel (offset + n)
    else []

/-- The `DspGraph::process` call pattern of one `Processor::process_graph`
call on a buffer of `total` frames at transport position `samplePosition`
with the given sample rate. -/
def processGraphCalls (total samplePosition sampleRate : Nat) : List (Nat × Nat × ℚ) :=
  processGraphCallsAux (currentTime samplePosition sampleRate) total total 0

/-- `calls` tiles the frame range `[start, total)` with consecutive,
non-overlapping chunks. -/
def chunksCover : List (Nat × Nat × ℚ) → Nat → Nat → Prop
  | [], start, total => start = total
  | c :: rest, start, total => c.1 = start ∧ chunksCover rest (start + c.2.1) total

/-- `Timestamp::incremented_by_samples(n, sample_rate)`: the time `n`
samples later (`timestamp.rs`: `seconds + n / sample_rate`); timestamps are
modelled as rational seconds. -/
def incrementedBySamples (t : ℚ) (n sampleRate : Nat) : ℚ :=
  t + (n : ℚ) / (sampleRate : ℚ)

/-- `Timestamp::get_samples(sample_rate)`: the time expressed as a sample
count (`seconds * sample_rate`), used by the sampler before flooring. -/
def timestampGetSamples (t : ℚ) (sampleRate : Nat) : ℚ :=
  t * (sampleRate : ℚ)

/-- `SINE_WAVE_TABLE` length (`src/dsp/oscillator/processor.rs` line
15). -/
def sineWaveTableLength : Nat := 8192

/-- One iteration of the wrap loop of
`OscillatorDspProcess::increment_phase` (`processor.rs` lines 42-44):
`while phase > 1.0 \x7b phase -= 1.0 \x7d`, with enough fuel to run the
loop to completion. -/
def wrapPhaseAux : Nat → ℚ → ℚ
  | 0, p => p
  | n + 1, p => if 1 < p then wrapPhaseAux n (p - 1) else p

/-- `OscillatorDspProcess::increment_phase` (`processor.rs` lines 40-45):
advance the phase by `frequency / sample_rate` and run the wrap loop.  The
fuel `⌈p⌉.toNat` bounds the number of subtractions the loop performs. -/
def incrementPhase (phase frequency : ℚ) (sampleRate : Nat) : ℚ :=
  let p := phase + frequency / (sampleRate : ℚ)
  wrapPhaseAux (Int.toNat ⌈p⌉) p

/-- The table offset `phase * SINE_WAVE_TABLE.len()` of
`OscillatorDspProcess::get_value` (`processor.rs` line 48). -/
def oscOffset (phase : ℚ) : ℚ :=
  phase * (sineWaveTableLength : ℚ)

/-- `offset.floor() as usize` (`processor.rs` line 50); the Rust
float-to-integer cast saturates at 0 for negative values, which `Int.toNat`
mirrors. -/
def oscOffsetBefore (phase : ℚ) : Nat :=
  (⌊oscOffset phase⌋).toNat

/-- `offset.ceil() as usize` (`processor.rs` line 51). -/
def oscOffsetAfter (phase : ℚ) : Nat :=
  (⌈oscOffset phase⌉).toNat

/-- `interpolate` (`processor.rs` lines 65-67). -/
def interpolate (a b amountOfB : ℚ) : ℚ :=
  (1 - amountOfB) * a + amountOfB * b

/-- `OscillatorDspProcess::get_value` (`processor.rs` lines 47-62),
parametrized by the table contents `table` (the real table holds
`sin(τ·i/8192)`, which is irrational; no proved statement depends on the
entry values).  The read of `table (oscOffsetBefore phase)` panics in the
source whenever `oscOffsetBefore phase ≥ sineWaveTableLength`; the model
reads a total function and the bound is settled separately. -/
def oscGetValue (table : Nat → ℚ) (phase : ℚ) : ℚ :=
  let offset := oscOffset phase
  let valueBefore := table (oscOffsetBefore phase)
  let valueAfter :=
    if oscOffsetAfter phase < sineWaveTableLength then table (oscOffsetAfter phase) else 0
  let weighting := offset - ⌊offset⌋
  interpolate valueBefore valueAfter weighting

/-- The oscillator processor state (`src/dsp/oscillator/processor.rs`:
`OscillatorDspProcess`). -/
structure OscillatorDspProcess where
  phase : ℚ
  frequencyId : Id
  gainId : Id

/-- Write `v` to every channel below `nch` at frame `frame`
(`processor.rs` lines 100-102). -/
def writeAllChannels (buf : Buf) (frame nch : Nat) (v : ℚ) : Buf :=
  fun ch fr => if fr = frame ∧ ch < nch then v else buf ch fr

/-- The per-frame loop of `OscillatorDspProcess::process_audio`
(`processor.rs` lines 92-103), by recursion on the remaining frame count:
evaluate both parameters at the frame time, advance the phase, look the
sine value up and write it to every channel. -/
def oscFrameLoop (table : Nat → ℚ) (freqParam gainParam : DspParameter) (startTime : ℚ)
    (sampleRate nch : Nat) : Nat → Nat → ℚ → Buf → ℚ × Buf
  | 0, _, phase, buf => (phase, buf)
  | rem + 1, frame, phase, buf =>
    let frameTime := incrementedBySamples startTime frame sampleRate
    let frequency := freqParam.getValueAtTime frameTime
    let gain := gainParam.getValueAtTime frameTime
    let phase1 := incrementPhase phase frequency sampleRate
    let value := gain * oscGetValue table phase1
    oscFrameLoop table freqParam gainParam startTime sampleRate nch rem (frame + 1) phase1
      (writeAllChannels buf frame nch value)

/-- `OscillatorDspProcess::process_audio` (`processor.rs` lines 70-104):
return unchanged when either parameter is missing, otherwise run the frame
loop. -/
def OscillatorDspProcess.processAudio (table : Nat → ℚ) (osc : OscillatorDspProcess)
    (params : List (Id × DspParameter)) (out : AudioBuf) (startTime : ℚ) :
    OscillatorDspProcess × AudioBuf :=
  match List.lookup osc.frequencyId params with
  | none => (osc, out)
  | some freqParam =>
    match List.lookup osc.gainId params with
    | none => (osc, out)
    | some gainParam =>
      let r := oscFrameLoop table freqParam gainParam startTime out.sampleRate
        out.numChannels out.numFrames 0 osc.phase out.data
      ({ osc with phase := r.1 }, { out with data := r.2 })

/-- `MAX_PENDING_EVENTS` (`src/dsp/sampler/processor.rs` line 22). -/
def maxPendingEvents : Nat := 10

/-- `SampleEventType` (`sampler/processor.rs` lines 24-27). -/
inductive SampleEventType where
  | start (positionInSample : ℚ)
  | stop
deriving DecidableEq, Repr

/-- `SamplerEvent` (`sampler/processor.rs` lines 29-32). -/
structure SamplerEvent where
  time : ℚ
  eventType : SampleEventType
deriving DecidableEq, Repr

/-- Insert an event into a time-sorted event list. -/
def insertByTime (e : SamplerEvent) : List SamplerEvent → List SamplerEvent
  | [] => [e]
  | x :: xs => if e.time ≤ x.time then e :: x :: xs else x :: insertByTime e xs

/-- The `sort_by` over event times of `SamplerDspProcess::read_events`
(`sampler/processor.rs` lines 161-164), modelled as insertion sort. -/
def sortByTime : List SamplerEvent → List SamplerEvent
  | [] => []
  | x :: xs => insertByTime x (sortByTime xs)

/-- `SamplerDspProcess::read_events` (`sampler/processor.rs` lines
153-165): push every event received from the channel onto the pending
vector, then re-sort it by time when anything arrived. -/
def readEvents (pending incoming : List SamplerEvent) : List SamplerEvent :=
  if incoming.isEmpty then pending else sortByTime (pending ++ incoming)

/-- `SamplerDspProcess::next_event_before` (`sampler/processor.rs` lines
133-141): pop the head of the pending vector when its time is before
`endTime`; also returns the remaining pending events. -/
def nextEventBefore (pending : List SamplerEvent) (endTime : ℚ) :
    Option (SamplerEvent × List SamplerEvent) :=
  match pending with
  | [] => none
  | e :: rest => if e.time < endTime then some (e, rest) else none

/-- `SamplerDspProcess::next_render_point` (`sampler/processor.rs` lines
112-131): when a pending event falls before the block end, clamp its time
to the current render position, convert to a frame index within the block
and hand the event back; otherwise render to the end of the block. -/
def nextRenderPoint (pending : List SamplerEvent) (frameStartTime currentFramePosition : ℚ)
    (numberOfFrames sampleRate : Nat) : (Nat × Option SamplerEvent) × List SamplerEvent :=
  let frameEndTime := incrementedBySamples frameStartTime numberOfFrames sampleRate
  match nextEventBefore pending frameEndTime with
  | some (ev, rest) =>
    let eventTime := max ev.time currentFramePosition
    let positionInFrame := eventTime - frameStartTime
    (((⌊timestampGetSamples positionInFrame sampleRate⌋).toNat, some ev), rest)
  | none => ((numberOfFrames, none), pending)

/-! ### Concrete instances used by the witnesses -/

/-- A concrete empty graph over trivial processor state. -/
def exampleGraph : DspGraph Unit :=
  { nodes := []
    edges := []
    outputEndpoint := none
    sorted := []
    sortFn := fun _ _ => []
    graphNeedsSort := false
    pool := freshPool 4
    maximumNumberOfChannels := 2
    maximumNumberOfFrames := 512
    sampleRate := 44100 }

/-- A concrete parameter change request addressing a node id that is not in
`exampleGraph`. -/
def exampleRequest : ParameterChangeRequest :=
  ⟨0, 0, ⟨0, 1, EventShape.step⟩⟩

/-- A concrete output buffer. -/
def exampleOut : AudioBuf :=
  { data := fun _ _ => 1, numChannels := 2, numFrames := 64, sampleRate := 44100 }

/-- A concrete processor state whose transport is running. -/
def exampleProcessorState : ProcessorState Unit :=
  { started := true
    sampleRate := 44100
    samplePosition := 7
    graph := exampleGraph
    positionNotification := ⟨1470, 0⟩ }

/-- A concrete oscillator. -/
def exampleOsc : OscillatorDspProcess :=
  { phase := 0, frequencyId := 1, gainId := 2 }

/-- A concrete sampler stop event. -/
def exampleEvent : SamplerEvent :=
  ⟨0, SampleEventType.stop⟩

/-! ### C9: unknown node id on a parameter change is silently ignored -/

/-- Claim C9: for every `ParameterChangeRequest` whose `dsp_id` does not
name a node of the graph, `DspGraph::request_parameter_change` returns with
the graph unchanged: every node, every parameter timeline, every edge and
the output endpoint are exactly as before. -/
theorem requestParameterChange_unknown_id_ignored {S : Type} (g : DspGraph S)
    (req : ParameterChangeRequest) (h : List.lookup req.dspId g.nodes = none) :
    g.requestParameterChange req = g := by
  unfold DspGraph.requestParameterChange
  rw [h]

/-- Witness for C9 at a concrete graph and request. -/
theorem requestParameterChange_unknown_id_ignored_witness :
    List.lookup exampleRequest.dspId exampleGraph.nodes = none ∧
      exampleGraph.requestParameterChange exampleRequest = exampleGraph :=
  ⟨rfl, requestParameterChange_unknown_id_ignored exampleGraph exampleRequest rfl⟩

/-! ### C8: oscillator with a missing parameter writes nothing -/

/-- Claim C8: when the parameter map lacks the oscillator's frequency id or
its gain id, `OscillatorDspProcess::process_audio` leaves the output buffer
and the phase exactly unchanged. -/
theorem oscillator_missing_parameter_writes_nothing (table : Nat → ℚ)
    (osc : OscillatorDspProcess) (params : List (Id × DspParameter)) (out : AudioBuf)
    (t : ℚ)
    (h : List.lookup osc.frequencyId params = none ∨ List.lookup osc.gainId params = none) :
    OscillatorDspProcess.processAudio table osc params out t = (osc, out) := by
  unfold OscillatorDspProcess.processAudio
  rcases h with h | h
  · rw [h]
  · cases hf : List.lookup osc.frequencyId params with
    | none => rfl
    | some freqParam => rw [h]

/-- Witness for C8 at a concrete oscillator with an empty parameter map. -/
theorem oscillator_missing_parameter_writes_nothing_witness :
    (List.lookup exampleOsc.frequencyId ([] : List (Id × DspParameter)) = none ∨
      List.lookup exampleOsc.gainId ([] : List (Id × DspParameter)) = none) ∧
    OscillatorDspProcess.processAudio (fun _ => 0) exampleOsc [] exampleOut 0 =
      (exampleOsc, exampleOut) :=
  ⟨Or.inl rfl,
    oscillator_missing_parameter_writes_nothing (fun _ => 0) exampleOsc [] exampleOut 0
      (Or.inl rfl)⟩

/-! ### C7: past sampler events are clamped to the current render position -/

/-- Claim C7: when the head pending event's time lies before the current
render position `start + p / sample_rate` (with `p` the frames already
rendered in this block, `p ≤ n`), `next_render_point` uses
`max(event.time, current) = current`, so the event takes effect exactly at
the frame being rendered: the returned render point is `p` itself, never a
negative or already-rendered offset. -/
theorem sampler_past_event_clamped_to_now (ev : SamplerEvent) (rest : List SamplerEvent)
    (start : ℚ) (p n sampleRate : Nat)
    (h1 : ev.time < incrementedBySamples start p sampleRate)
    (h2 : p ≤ n) (h3 : 0 < sampleRate) :
    nextRenderPoint (ev :: rest) start (incrementedBySamples start p sampleRate) n sampleRate
      = ((p, some ev), rest) := by
  have hsr : ((sampleRate : ℚ)) ≠ 0 := by
    exact_mod_cast Nat.pos_iff_ne_zero.mp h3
  have hsr' : (0 : ℚ) < (sampleRate : ℚ) := by exact_mod_cast h3
  have hle : ((p : ℚ)) / (sampleRate : ℚ) ≤ ((n : ℚ)) / (sampleRate : ℚ) := by
    have hpn : ((p : ℚ)) ≤ (n : ℚ) := by exact_mod_cast h2
    exact (div_le_div_iff_of_pos_right hsr').mpr hpn
  have hsel : ev.time < incrementedBySamples start n sampleRate := by
    apply lt_of_lt_of_le h1
    unfold incrementedBySamples
    linarith
  have hmax : max ev.time (incrementedBySamples start p sampleRate)
      = incrementedBySamples start p sampleRate := max_eq_right (le_of_lt h1)
  have hdiff : incrementedBySamples start p sampleRate - start = (p : ℚ) / (sampleRate : ℚ) := by
    unfold incrementedBySamples; ring
  have hsamples : timestampGetSamples ((p : ℚ) / (sampleRate : ℚ)) sampleRate = (p : ℚ) := by
    unfold timestampGetSamples
    field_simp
  simp [nextRenderPoint, nextEventBefore, hsel, hmax, hdiff, hsamples]

/-- Witness for C7 at a concrete past event. -/
theorem sampler_past_event_clamped_to_now_witness :
    exampleEvent.time < incrementedBySamples 0 3 2 ∧ 3 ≤ 4 ∧ 0 < 2 ∧
    nextRenderPoint [exampleEvent] 0 (incrementedBySamples 0 3 2) 4 2 = ((3, some exampleEvent), []) :=
  ⟨by norm_num [exampleEvent, incrementedBySamples], by norm_num, by norm_num,
    sampler_past_event_clamped_to_now exampleEvent [] 0 3 4 2
      (by norm_num [exampleEvent, incrementedBySamples]) (by norm_num) (by norm_num)⟩

/-! ### C3: the oscillator phase can escape `[0, 1)` -/

/-- Claim C3 (code bug): `increment_phase` wraps with
`while phase > 1.0 \x7b phase -= 1.0 \x7d`, so from phase `0` a frequency
equal to the sample rate leaves the phase at exactly `1.0`, outside the
specified interval `[0, 1)`; a negative frequency drives the phase below
`0`, which the loop never repairs.  The spec's wrap (`phase -= floor(phase)`)
would keep the phase in `[0, 1)` in both cases. -/
theorem oscillator_phase_escapes_unit_interval :
    incrementPhase 0 44100 44100 = 1 ∧
    ¬ incrementPhase 0 44100 44100 < 1 ∧
    incrementPhase 0 (-100) 44100 < 0 := by
  have h1 : incrementPhase 0 44100 44100 = 1 := by
    simp only [incrementPhase]
    have hp : (0 : ℚ) + 44100 / ((44100 : ℕ) : ℚ) = 1 := by norm_num
    rw [hp, Int.ceil_one]
    norm_num [wrapPhaseAux]
  have h3 : incrementPhase 0 (-100) 44100 < 0 := by
    simp only [incrementPhase]
    have hp : (0 : ℚ) + (-100) / ((44100 : ℕ) : ℚ) = -(100 / 44100 : ℚ) := by
      push_cast
      ring
    rw [hp]
    have hc : ⌈-((100 : ℚ) / 44100)⌉ = 0 := by
      rw [Int.ceil_eq_zero_iff]
      constructor <;> norm_num
    rw [hc]
    norm_num [wrapPhaseAux]
  exact ⟨h1, by rw [h1]; exact lt_irrefl 1, h3⟩

/-! ### C10: the sine table read can go out of bounds -/

/-- Claim C10 (code bug): the phase value `1.0` is reachable from
`increment_phase` (for example from phase `0` with frequency equal to the
sample rate, see C3), and at phase `1.0` the lower table index
`floor(phase * 8192)` equals the table length `8192`, so the read
`SINE_WAVE_TABLE[offset_before]` in `get_value` is out of bounds and
panics; the index is not strictly less than the table length for every
reachable phase. -/
theorem oscillator_table_index_out_of_bounds :
    incrementPhase 0 44100 44100 = 1 ∧
    oscOffsetBefore 1 = sineWaveTableLength ∧
    ¬ oscOffsetBefore 1 < sineWaveTableLength := by
  have h1 : incrementPhase 0 44100 44100 = 1 := by
    simp only [incrementPhase]
    have hp : (0 : ℚ) + 44100 / ((44100 : ℕ) : ℚ) = 1 := by norm_num
    rw [hp, Int.ceil_one]
    norm_num [wrapPhaseAux]
  have h2 : oscOffsetBefore 1 = sineWaveTableLength := by
    simp only [oscOffsetBefore, oscOffset, sineWaveTableLength]
    norm_num
    decide
  exact ⟨h1, h2, by rw [h2]; exact lt_irrefl _⟩

/-! ### C6: the sampler's pending-event vector is not bounded at 10 -/

/-- Inserting into a time-sorted list grows it by exactly one element. -/
theorem insertByTime_length (e : SamplerEvent) (l : List SamplerEvent) :
    (insertByTime e l).length = l.length + 1 := by
  induction l with
  | nil => rfl
  | cons x xs ih =>
    unfold insertByTime
    split
    · rfl
    · simp [ih]

/-- Sorting the pending vector preserves its length. -/
theorem sortByTime_length (l : List SamplerEvent) :
    (sortByTime l).length = l.length := by
  induction l with
  | nil => rfl
  | cons x xs ih =>
    unfold sortByTime
    rw [insertByTime_length, ih]
    rfl

/-- Claim C6, counterexample: delivering 11 events to an empty pending
vector leaves all 11 stored; the resulting length exceeds
`MAX_PENDING_EVENTS = 10`, so the buffer is not bounded at 10 and no event
is dropped or rejected. -/
theorem sampler_pending_events_exceed_bound :
    (readEvents [] (List.replicate 11 exampleEvent)).length = 11 ∧
    ¬ (readEvents [] (List.replicate 11 exampleEvent)).length ≤ maxPendingEvents := by
  refine ⟨?_, ?_⟩ <;> decide

/-- Claim C6, amended: `read_events` stores every received event — the
pending vector after a call holds exactly the previously pending events
plus all newly received ones, so its length is not limited by
`MAX_PENDING_EVENTS`; the constant only pre-sizes the vector's initial
capacity. -/
theorem sampler_readEvents_stores_every_event (pending incoming : List SamplerEvent) :
    (readEvents pending incoming).length = pending.length + incoming.length := by
  unfold readEvents
  split
  · next h =>
      rw [List.isEmpty_iff.mp h]
      rfl
  · rw [sortByTime_length, List.length_append]

/-! ### C2: all chunks of one callback share one timestamp -/

/-- Claim C2, counterexample: a 1024-frame callback at transport position 0
(sample rate 44100) is split into two 512-frame chunks, and both
`DspGraph::process` calls receive the same timestamp `0`; the claimed
timestamp of the second chunk's first frame, `512 / 44100` seconds, differs
from the timestamp `0` the code passes. -/
theorem processor_chunk_timestamps_all_equal :
    processGraphCalls 1024 0 44100
      = [(0, 512, currentTime 0 44100), (512, 512, currentTime 0 44100)] ∧
    currentTime 0 44100 = 0 ∧
    ((512 : ℚ) / 44100 ≠ 0) := by
  refine ⟨rfl, ?_, by norm_num⟩
  unfold currentTime
  norm_num

/-- Claim C2, amended: `Processor::process_graph` splits the output into
consecutive chunks of at most `MAX_FRAMES = 512` frames that cover it
exactly once, and every chunk is rendered by `DspGraph::process` with the
one transport timestamp computed at the start of the callback
(`sample_position / sample_rate`) — the same timestamp for every chunk, not
the per-chunk advanced one. -/
theorem processor_chunking_covers_with_single_timestamp
    (total samplePosition sampleRate : Nat) :
    (∀ c ∈ processGraphCalls total samplePosition sampleRate,
      c.2.1 ≤ maximumNumberOfFramesPerChunk ∧ 0 < c.2.1 ∧
        c.2.2 = currentTime samplePosition sampleRate) ∧
    chunksCover (processGraphCalls total samplePosition sampleRate) 0 total := by
  have aux : ∀ (fuel offset : Nat), offset ≤ total → total - offset ≤ fuel →
      (∀ c ∈ processGraphCallsAux (currentTime samplePosition sampleRate) total fuel offset,
        c.2.1 ≤ maximumNumberOfFramesPerChunk ∧ 0 < c.2.1 ∧
          c.2.2 = currentTime samplePosition sampleRate) ∧
      chunksCover (processGraphCallsAux (currentTime samplePosition sampleRate) total fuel offset)
        offset total := by
    intro fuel
    induction fuel with
    | zero =>
      intro offset h1 h2
      have hoff : offset = total := by omega
      subst hoff
      refine ⟨?_, rfl⟩
      intro c hc
      simp [processGraphCallsAux] at hc
    | succ fuel ih =>
      intro offset h1 h2
      unfold processGraphCallsAux
      split
      · next hlt =>
        generalize hn : min (total - offset) maximumNumberOfFramesPerChunk = n
        have hmin1 : 1 ≤ n := by
          rw [← hn]
          refine Nat.le_min.mpr ⟨by omega, ?_⟩
          unfold maximumNumberOfFramesPerChunk
          omega
        have hminle : n ≤ total - offset := hn ▸ Nat.min_le_left _ _
        have hminr : n ≤ maximumNumberOfFramesPerChunk := hn ▸ Nat.min_le_right _ _
        have hA : offset + n ≤ total := by omega
        have hB : total - (offset + n) ≤ fuel := by omega
        have hrec := ih (offset + n) hA hB
        refine ⟨?_, ?_⟩
        · intro c hc
          rcases List.mem_cons.mp hc with hc | hc
          · subst hc
            exact ⟨hminr, hmin1, rfl⟩
          · exact hrec.1 c hc
        · exact ⟨rfl, hrec.2⟩
      · next hge =>
        have hoff : offset = total := by omega
        subst hoff
        refine ⟨?_, rfl⟩
        intro c hc
        cases hc
  exact aux total 0 (Nat.zero_le _) (by omega)

/-- Witness for the amended C2 statement at a concrete callback. -/
theorem processor_chunking_covers_with_single_timestamp_witness :
    chunksCover (processGraphCalls 1024 0 44100) 0 1024 :=
  (processor_chunking_covers_with_single_timestamp 1024 0 44100).2

/-! ### C4: a stopped processor renders silence and holds the transport -/

/-- Draining commands never changes the transport position: every command
arm of `Processor::process_commands` leaves `sample_position` alone. -/
theorem foldl_applyCommand_samplePosition {S : Type} (cmds : List (Command S))
    (p : ProcessorState S) :
    (cmds.foldl applyCommand p).samplePosition = p.samplePosition := by
  induction cmds generalizing p with
  | nil => rfl
  | cons c rest ih =>
    rw [List.foldl_cons, ih]
    cases c <;> rfl

/-- Claim C4: whenever the `started` flag is false after draining the
command channel (for example after a `Stop`), `Processor::process` returns
the cleared (all-zero) output buffer untouched, emits no notification and
leaves `sample_position` exactly where it was. -/
theorem processor_not_started_renders_silence {S : Type} (p : ProcessorState S) (st : S)
    (cmds : List (Command S)) (out : AudioBuf)
    (h : (cmds.foldl applyCommand p).started = false) :
    processorProcess p st cmds out
      = some (cmds.foldl applyCommand p, st, { out with data := fun _ _ => 0 }, none) ∧
    (cmds.foldl applyCommand p).samplePosition = p.samplePosition := by
  constructor
  · simp [processorProcess, h]
  · exact foldl_applyCommand_samplePosition cmds p

/-- Witness for C4: a concrete running processor that drains a `Stop`
command renders the zero buffer and keeps its transport position. -/
theorem processor_not_started_renders_silence_witness :
    (([Command.stop] : List (Command Unit)).foldl applyCommand exampleProcessorState).started
      = false ∧
    (processorProcess exampleProcessorState () [Command.stop] exampleOut
      = some (([Command.stop] : List (Command Unit)).foldl applyCommand exampleProcessorState,
          (), { exampleOut with data := fun _ _ => 0 }, none) ∧
      (([Command.stop] : List (Command Unit)).foldl applyCommand
        exampleProcessorState).samplePosition = exampleProcessorState.samplePosition) :=
  ⟨rfl, processor_not_started_renders_silence exampleProcessorState () [Command.stop]
    exampleOut rfl⟩

/-! ### C1: after `DspGraph::process` all pool buffers are free and untagged -/

/-- Detaching an assigned buffer shrinks the assignment list by one. -/
theorem removeAssigned_length (l : List (Endpoint × Buf)) (e : Endpoint) (b : Buf)
    (l' : List (Endpoint × Buf)) (h : removeAssigned l e = some (b, l')) :
    l'.length + 1 = l.length := by
  induction l generalizing b l' with
  | nil => simp [removeAssigned] at h
  | cons x rest ih =>
    obtain ⟨e1, b1⟩ := x
    simp only [removeAssigned] at h
    split at h
    · cases h
      rfl
    · cases hr : removeAssigned rest e with
      | none => rw [hr] at h; cases h
      | some pr =>
        obtain ⟨b2, rest2⟩ := pr
        rw [hr] at h
        cases h
        have h3 := ih _ _ hr
        simp only [List.length_cons]
        omega

/-- `mix_in_endpoint` moves one tagged buffer out and back: the pool's
buffer count, capacity and free list are unchanged. -/
theorem mixInEndpoint_pool_facts (pool : BufferPool) (e : Endpoint) (out : Buf)
    (nch nfr : Nat) :
    (mixInEndpoint pool e out nch nfr).1.size = pool.size ∧
    (mixInEndpoint pool e out nch nfr).1.capacity = pool.capacity ∧
    (mixInEndpoint pool e out nch nfr).1.free = pool.free := by
  unfold mixInEndpoint BufferPool.getAssignedBuffer
  cases hr : removeAssigned pool.assigned e with
  | none => simp
  | some pr =>
    obtain ⟨b, rest⟩ := pr
    have hlen := removeAssigned_length pool.assigned e b rest hr
    simp [BufferPool.returnBufferWithAssignment, BufferPool.size]
    omega

/-- Folding `mix_in_endpoint` over a list of endpoints preserves the
pool's buffer count, capacity and free list. -/
theorem mixFold_pool_facts (L : List Id) :
    ∀ (pool : BufferPool) (buf : Buf) (nch nfr : Nat),
    (L.foldl (fun acc src => mixInEndpoint acc.1 ⟨src, EndpointType.output⟩ acc.2 nch nfr)
      (pool, buf)).1.size = pool.size ∧
    (L.foldl (fun acc src => mixInEndpoint acc.1 ⟨src, EndpointType.output⟩ acc.2 nch nfr)
      (pool, buf)).1.capacity = pool.capacity ∧
    (L.foldl (fun acc src => mixInEndpoint acc.1 ⟨src, EndpointType.output⟩ acc.2 nch nfr)
      (pool, buf)).1.free = pool.free := by
  induction L with
  | nil => intro pool buf nch nfr; exact ⟨rfl, rfl, rfl⟩
  | cons i L ih =>
    intro pool buf nch nfr
    rw [List.foldl_cons]
    have hmix := mixInEndpoint_pool_facts pool ⟨i, EndpointType.output⟩ buf nch nfr
    cases hm : mixInEndpoint pool ⟨i, EndpointType.output⟩ buf nch nfr with
    | mk pool1 buf1 =>
      rw [hm] at hmix
      have hrec := ih pool1 buf1 nch nfr
      exact ⟨hrec.1.trans hmix.1, hrec.2.1.trans hmix.2.1, hrec.2.2.trans hmix.2.2⟩

/-- An exhausted pool fails the first take of `process_dsp`. -/
theorem processDsp_none_of_empty {S : Type} (pool : BufferPool) (g : DspGraph S) (st : S)
    (i : Id) (nfr nch : Nat) (t : ℚ) (hf : pool.free = []) :
    processDsp pool g st i nfr nch t = none := by
  unfold processDsp BufferPool.getUnassignedBuffer
  rw [hf]

/-- A pool with a single free buffer fails the second take of
`process_dsp`. -/
theorem processDsp_none_of_single {S : Type} (pool : BufferPool) (g : DspGraph S) (st : S)
    (i : Id) (nfr nch : Nat) (t : ℚ) (b1 : Buf) (hf : pool.free = [b1]) :
    processDsp pool g st i nfr nch t = none := by
  unfold processDsp BufferPool.getUnassignedBuffer
  rw [hf]

/-- Unfolding of `process_dsp` when the pool holds at least two free
buffers: both takes succeed, the dependencies are mixed into the zeroed
input, the node (when present) runs on the mixed input, the input buffer is
returned free and the output buffer is returned tagged `(i, Output)`. -/
theorem processDsp_step {S : Type} (pool : BufferPool) (g : DspGraph S) (st : S) (i : Id)
    (nfr nch : Nat) (t : ℚ) (b1 b2 : Buf) (rest : List Buf)
    (hf : pool.free = b1 :: b2 :: rest) :
    processDsp pool g st i nfr nch t =
      (let mixed := copyOutputFromDependencies { pool with free := rest } g i zeroBuf nch nfr
       let ran :=
         match g.getNode i with
         | some d => d.run st mixed.2 t nfr nch g.sampleRate d.parameters
         | none => (zeroBuf, st)
       some (((mixed.1).returnBuffer mixed.2).returnBufferWithAssignment
          (fun ch fr => if fr < nfr then ran.1 ch fr else 0) ⟨i, EndpointType.output⟩,
        ran.2)) := by
  unfold processDsp BufferPool.getUnassignedBuffer
  rw [hf]

/-- A successful `process_dsp` preserves the pool's buffer count and
capacity: both takes are paired with returns on every control path. -/
theorem processDsp_pool_facts {S : Type} (pool : BufferPool) (g : DspGraph S) (st : S)
    (i : Id) (nfr nch : Nat) (t : ℚ) (pool' : BufferPool) (st' : S)
    (h : processDsp pool g st i nfr nch t = some (pool', st')) :
    pool'.size = pool.size ∧ pool'.capacity = pool.capacity := by
  rcases hf : pool.free with _ | ⟨b1, rest1⟩
  · rw [processDsp_none_of_empty pool g st i nfr nch t hf] at h
    cases h
  rcases rest1 with _ | ⟨b2, rest⟩
  · rw [processDsp_none_of_single pool g st i nfr nch t b1 hf] at h
    cases h
  · rw [processDsp_step pool g st i nfr nch t b1 b2 rest hf] at h
    have hmix := mixFold_pool_facts (DspGraph.incomingNodes g i)
      { pool with free := rest } zeroBuf nch nfr
    cases h
    constructor
    · simp only [BufferPool.returnBufferWithAssignment, BufferPool.returnBuffer,
        BufferPool.size, List.length_cons] at hmix ⊢
      rw [hf]
      simp only [copyOutputFromDependencies] at *
      simp only [List.length_cons]
      omega
    · simp only [BufferPool.returnBufferWithAssignment, BufferPool.returnBuffer] at hmix ⊢
      simp only [copyOutputFromDependencies] at *
      exact hmix.2.1

/-- Folding `Option.bind` over `none` stays `none`. -/
theorem foldl_bind_none {S : Type} (L : List Id) (g : DspGraph S) (nfr nch : Nat) (t : ℚ) :
    L.foldl (fun acc i => acc.bind fun r => processDsp r.1 g r.2 i nfr nch t) none = none := by
  induction L with
  | nil => rfl
  | cons i L ih => rw [List.foldl_cons]; exact ih

/-- Processing any list of nodes preserves the pool's buffer count and
capacity. -/
theorem processFold_pool_facts {S : Type} (L : List Id) (g : DspGraph S) (nfr nch : Nat)
    (t : ℚ) :
    ∀ (pool : BufferPool) (st : S) (pool' : BufferPool) (st' : S),
    L.foldl (fun acc i => acc.bind fun r => processDsp r.1 g r.2 i nfr nch t)
      (some (pool, st)) = some (pool', st') →
    pool'.size = pool.size ∧ pool'.capacity = pool.capacity := by
  induction L with
  | nil =>
    intro pool st pool' st' h
    cases h
    exact ⟨rfl, rfl⟩
  | cons i L ih =>
    intro pool st pool' st' h
    rw [List.foldl_cons] at h
    simp only [Option.some_bind] at h
    cases hd : processDsp pool g st i nfr nch t with
    | none =>
      rw [hd, foldl_bind_none] at h
      cases h
    | some r =>
      obtain ⟨p1, s1⟩ := r
      rw [hd] at h
      have hstep := processDsp_pool_facts pool g st i nfr nch t p1 s1 hd
      have hrec := ih p1 s1 pool' st' h
      exact ⟨hrec.1.trans hstep.1, hrec.2.trans hstep.2⟩

/-- `write_to_output` preserves the pool's buffer count and capacity. -/
theorem writeToOutput_pool_facts {S : Type} (pool : BufferPool) (g : DspGraph S) (out : Buf)
    (nch nfr : Nat) :
    (writeToOutput pool g out nch nfr).1.size = pool.size ∧
    (writeToOutput pool g out nch nfr).1.capacity = pool.capacity := by
  unfold writeToOutput
  cases g.outputEndpoint with
  | none => exact ⟨rfl, rfl⟩
  | some e =>
    have := mixInEndpoint_pool_facts pool e out nch nfr
    exact ⟨this.1, this.2.1⟩

/-- Re-sorting the graph does not touch the pool. -/
theorem sortGraph_pool {S : Type} (g : DspGraph S) : (g.sortGraph).pool = g.pool := by
  unfold DspGraph.sortGraph
  split <;> rfl

/-- Re-sorting does not change the output endpoint either. -/
theorem sortGraph_outputEndpoint {S : Type} (g : DspGraph S) :
    (g.sortGraph).outputEndpoint = g.outputEndpoint := by
  unfold DspGraph.sortGraph
  split <;> rfl

/-- Clearing the assignments puts every accounted buffer on the free
list. -/
theorem clearAssignments_facts (pool : BufferPool) :
    (pool.clearAssignments).assigned = [] ∧
    (pool.clearAssignments).free.length = pool.size ∧
    (pool.clearAssignments).capacity = pool.capacity := by
  unfold BufferPool.clearAssignments BufferPool.size
  simp

/-- Claim C1: whenever `DspGraph::process` returns (for a pool whose
recorded capacity matches its buffer count, as holds for a freshly
constructed pool), every buffer of the pool is free and carries no endpoint
assignment: `clear_assignments` ran and the
`assert!(all_buffers_are_available())` at the end of `process` holds on
every control path. -/
theorem dspGraph_process_leaves_pool_free {S : Type} (g : DspGraph S) (st : S)
    (out : AudioBuf) (t : ℚ) (r : DspGraph S × S × AudioBuf)
    (hcap : g.pool.capacity = g.pool.size)
    (h : DspGraph.process g st out t = some r) :
    r.1.pool.assigned = [] ∧ r.1.pool.allBuffersAreAvailable = true := by
  simp only [DspGraph.process] at h
  cases hp : processDsps (g.sortGraph).pool g.sortGraph st
      (min out.numFrames g.maximumNumberOfFrames)
      (min out.numChannels g.maximumNumberOfChannels) t with
  | none => rw [hp] at h; cases h
  | some pr =>
    obtain ⟨pool1, st1⟩ := pr
    rw [hp] at h
    cases h
    unfold processDsps at hp
    have hfold := processFold_pool_facts (g.sortGraph).sorted g.sortGraph
      (min out.numFrames g.maximumNumberOfFrames)
      (min out.numChannels g.maximumNumberOfChannels) t
      (g.sortGraph).pool st pool1 st1 hp
    have hwrite := writeToOutput_pool_facts pool1 g.sortGraph out.data
      (min out.numChannels g.maximumNumberOfChannels)
      (min out.numFrames g.maximumNumberOfFrames)
    have hclear := clearAssignments_facts
      (writeToOutput pool1 g.sortGraph out.data
        (min out.numChannels g.maximumNumberOfChannels)
        (min out.numFrames g.maximumNumberOfFrames)).1
    refine ⟨hclear.1, ?_⟩
    unfold BufferPool.allBuffersAreAvailable
    rw [hclear.1]
    have hlen : (writeToOutput pool1 g.sortGraph out.data
        (min out.numChannels g.maximumNumberOfChannels)
        (min out.numFrames g.maximumNumberOfFrames)).1.clearAssignments.free.length
        = (writeToOutput pool1 g.sortGraph out.data
            (min out.numChannels g.maximumNumberOfChannels)
            (min out.numFrames g.maximumNumberOfFrames)).1.clearAssignments.capacity := by
      rw [hclear.2.1, hclear.2.2, hwrite.1, hwrite.2, hfold.1, hfold.2, sortGraph_pool]
      exact hcap.symm
    simp [hlen]

/-- Witness for C1: processing the concrete empty graph succeeds and
leaves its four-buffer pool fully free and untagged. -/
theorem dspGraph_process_leaves_pool_free_witness :
    exampleGraph.pool.capacity = exampleGraph.pool.size ∧
    ∃ r, DspGraph.process exampleGraph () exampleOut (0 : ℚ) = some r ∧
      r.1.pool.assigned = [] ∧ r.1.pool.allBuffersAreAvailable = true :=
  ⟨rfl, ⟨_, rfl,
    dspGraph_process_leaves_pool_free exampleGraph () exampleOut 0 _ rfl rfl⟩⟩

/-! ### C5: N sources into one destination are summed, tags survive mixing -/

/-- A source node: a processor that writes the fixed contents `b` into its
output slice, ignoring its input (the shape of the repository's test
processors). -/
def srcDsp (i : Id) (b : Buf) : Dsp Unit :=
  { id := i, run := fun s _ _ _ _ _ _ => (b, s), parameters := [] }

/-- A pass-through mixer node: a processor that writes its (already mixed)
input into its output slice, like the `add_from`-based test processor of
`dsp_graph.rs`. -/
def sumDsp (i : Id) : Dsp Unit :=
  { id := i, run := fun s input _ _ _ _ _ => (input, s), parameters := [] }

/-- The star graph of C5: every node of `sources` renders `B s` and is
connected into the single destination `d`, which is connected to the
output; `sources ++ [d]` is a valid linear extension of this DAG. -/
def mixGraph (sources : List Id) (d : Id) (B : Id → Buf) (mc mf sr : Nat) : DspGraph Unit :=
  { nodes := (sources.map fun s => (s, srcDsp s (B s))) ++ [(d, sumDsp d)]
    edges := sources.map fun s => Connection.ofIds s d
    outputEndpoint := some ⟨d, EndpointType.output⟩
    sorted := sources ++ [d]
    sortFn := fun _ _ => []
    graphNeedsSort := false
    pool := freshPool (sources.length + 2)
    maximumNumberOfChannels := mc
    maximumNumberOfFrames := mf
    sampleRate := sr }

/-- The tagged output buffer a source node leaves in the pool: its contents
on the rendered frames, zero elsewhere. -/
def tagOf (B : Id → Buf) (nfr : Nat) (s : Id) : Buf :=
  fun ch fr => if fr < nfr then B s ch fr else 0

/-- The mixing fold of `copy_output_from_dependencies`, named for the
lemmas below. -/
def mixList (nch nfr : Nat) (L : List Id) (pool : BufferPool) (buf : Buf) :
    BufferPool × Buf :=
  L.foldl (fun acc src => mixInEndpoint acc.1 ⟨src, EndpointType.output⟩ acc.2 nch nfr)
    (pool, buf)

/-- `copy_output_from_dependencies` is the mixing fold over the incoming
neighbors. -/
theorem copyOutputFromDependencies_eq_mixList {S : Type} (pool : BufferPool) (g : DspGraph S)
    (i : Id) (dest : Buf) (nch nfr : Nat) :
    copyOutputFromDependencies pool g i dest nch nfr
      = mixList nch nfr (g.incomingNodes i) pool dest := rfl

/-- The sequential fold of `process_dsps`, over an explicit node list. -/
def processList {S : Type} (g : DspGraph S) (nfr nch : Nat) (t : ℚ) (L : List Id)
    (pool : BufferPool) (st : S) : Option (BufferPool × S) :=
  L.foldl (fun acc i => acc.bind fun r => processDsp r.1 g r.2 i nfr nch t)
    (some (pool, st))

/-- `process_dsps` is the sequential fold over the cached order. -/
theorem processDsps_eq_processList {S : Type} (pool : BufferPool) (g : DspGraph S) (st : S)
    (nfr nch : Nat) (t : ℚ) :
    processDsps pool g st nfr nch t = processList g nfr nch t g.sorted pool st := rfl

/-- Splitting the node list splits the sequential fold. -/
theorem processList_append {S : Type} (g : DspGraph S) (nfr nch : Nat) (t : ℚ)
    (L1 L2 : List Id) (pool : BufferPool) (st : S) :
    processList g nfr nch t (L1 ++ L2) pool st
      = (processList g nfr nch t L1 pool st).bind
          (fun r => processList g nfr nch t L2 r.1 r.2) := by
  unfold processList
  rw [List.foldl_append]
  cases h : List.foldl (fun acc i => acc.bind fun r => processDsp r.1 g r.2 i nfr nch t)
      (some (pool, st)) L1 with
  | none => rw [foldl_bind_none]; rfl
  | some r => rfl

/-- Unfolding `removeAssigned` over a cons cell. -/
theorem removeAssigned_cons (e1 : Endpoint) (b1 : Buf) (l : List (Endpoint × Buf))
    (e : Endpoint) :
    removeAssigned ((e1, b1) :: l) e =
      if e1 = e then some (b1, l)
      else (removeAssigned l e).map (fun pr => (pr.1, (e1, b1) :: pr.2)) := rfl

/-- Unfolding `lookupAssigned` over a cons cell. -/
theorem lookupAssigned_cons (e1 : Endpoint) (b1 : Buf) (l : List (Endpoint × Buf))
    (e : Endpoint) :
    lookupAssigned ((e1, b1) :: l) e = if e1 = e then some b1 else lookupAssigned l e := by
  unfold lookupAssigned
  rw [removeAssigned_cons]
  by_cases he : e1 = e
  · rw [if_pos he, if_pos he]
    rfl
  · rw [if_neg he, if_neg he]
    cases h : removeAssigned l e with
    | none => rfl
    | some pr => rfl

/-- Detaching a tagged buffer and re-tagging it at the head of the list
preserves every lookup. -/
theorem removeAssigned_retag_lookup (l : List (Endpoint × Buf)) (e0 : Endpoint) (b : Buf)
    (rest : List (Endpoint × Buf)) (h : removeAssigned l e0 = some (b, rest)) :
    ∀ e, lookupAssigned ((e0, b) :: rest) e = lookupAssigned l e := by
  induction l generalizing b rest with
  | nil => simp [removeAssigned] at h
  | cons x l ih =>
    obtain ⟨e1, b1⟩ := x
    intro e
    rw [removeAssigned_cons] at h
    split at h
    · next heq =>
      cases h
      subst heq
      rfl
    · next hne =>
      cases hr : removeAssigned l e0 with
      | none => rw [hr] at h; cases h
      | some pr =>
        obtain ⟨b2, rest2⟩ := pr
        rw [hr] at h
        cases h
        have hp := (ih _ _ hr) e
        clear ih
        simp only [lookupAssigned_cons] at hp ⊢
        by_cases he0 : e0 = e
        · subst he0
          rw [if_pos rfl] at hp ⊢
          rw [if_neg hne]
          exact hp
        · rw [if_neg he0] at hp ⊢
          by_cases h1e : e1 = e
          · rw [if_pos h1e, if_pos h1e]
          · rw [if_neg h1e, if_neg h1e]
            exact hp

/-- `mix_in_endpoint` on a tagged endpoint adds the tagged buffer into the
output, leaves the free list alone and preserves every tag lookup. -/
theorem mixInEndpoint_of_lookup (pool : BufferPool) (e : Endpoint) (out : Buf)
    (nch nfr : Nat) (b : Buf) (h : lookupAssigned pool.assigned e = some b) :
    (mixInEndpoint pool e out nch nfr).2 = addFrom out b nch nfr ∧
    (mixInEndpoint pool e out nch nfr).1.free = pool.free ∧
    ∀ e2, lookupAssigned (mixInEndpoint pool e out nch nfr).1.assigned e2
      = lookupAssigned pool.assigned e2 := by
  unfold mixInEndpoint BufferPool.getAssignedBuffer
  unfold lookupAssigned at h
  cases hr : removeAssigned pool.assigned e with
  | none => rw [hr] at h; cases h
  | some pr =>
    obtain ⟨b2, rest⟩ := pr
    rw [hr] at h
    cases h
    exact ⟨rfl, rfl, removeAssigned_retag_lookup pool.assigned e b2 rest hr⟩

/-- Folding `mix_in_endpoint` over endpoints that are all tagged (with the
buffers given by `T`) sums the tagged contents into the destination
pointwise on `[0, nch) × [0, nfr)`, leaves the free list alone and
preserves every tag lookup. -/
theorem mixList_data (T : Id → Buf) (nch nfr : Nat) :
    ∀ (L : List Id) (pool : BufferPool) (buf : Buf),
    (∀ s ∈ L, lookupAssigned pool.assigned ⟨s, EndpointType.output⟩ = some (T s)) →
    (mixList nch nfr L pool buf).1.free = pool.free ∧
    (∀ e, lookupAssigned (mixList nch nfr L pool buf).1.assigned e
      = lookupAssigned pool.assigned e) ∧
    ∀ ch fr, (mixList nch nfr L pool buf).2 ch fr
      = if ch < nch ∧ fr < nfr then buf ch fr + ((L.map fun s => T s ch fr).sum)
        else buf ch fr := by
  intro L
  induction L with
  | nil =>
    intro pool buf hT
    refine ⟨rfl, fun e => rfl, ?_⟩
    intro ch fr
    simp [mixList]
  | cons s L ih =>
    intro pool buf hT
    have hs := hT s (List.mem_cons_self s L)
    have hmix := mixInEndpoint_of_lookup pool ⟨s, EndpointType.output⟩ buf nch nfr (T s) hs
    have hstep : mixList nch nfr (s :: L) pool buf
        = mixList nch nfr L (mixInEndpoint pool ⟨s, EndpointType.output⟩ buf nch nfr).1
          (mixInEndpoint pool ⟨s, EndpointType.output⟩ buf nch nfr).2 := by
      unfold mixList
      rw [List.foldl_cons]
    have hT1 : ∀ s2 ∈ L, lookupAssigned
        (mixInEndpoint pool ⟨s, EndpointType.output⟩ buf nch nfr).1.assigned
        ⟨s2, EndpointType.output⟩ = some (T s2) := by
      intro s2 hs2
      rw [hmix.2.2]
      exact hT s2 (List.mem_cons_of_mem s hs2)
    have hrec := ih (mixInEndpoint pool ⟨s, EndpointType.output⟩ buf nch nfr).1
      (mixInEndpoint pool ⟨s, EndpointType.output⟩ buf nch nfr).2 hT1
    refine ⟨?_, ?_, ?_⟩
    · rw [hstep, hrec.1, hmix.2.1]
    · intro e
      rw [hstep, hrec.2.1 e, hmix.2.2 e]
    · intro ch fr
      rw [hstep, hrec.2.2 ch fr, hmix.1]
      unfold addFrom
      by_cases hcf : ch < nch ∧ fr < nfr
      · rw [if_pos hcf, if_pos hcf, if_pos hcf]
        simp only [List.map_cons, List.sum_cons]
        ring
      · rw [if_neg hcf, if_neg hcf, if_neg hcf]

/-- Looking up any member of a tag list built over `M` yields its tagged
buffer. -/
theorem lookupAssigned_tagList (T : Id → Buf) :
    ∀ (M : List Id) (s : Id), s ∈ M →
    lookupAssigned (M.map fun x => ((⟨x, EndpointType.output⟩ : Endpoint), T x))
      ⟨s, EndpointType.output⟩ = some (T s) := by
  intro M
  induction M with
  | nil => intro s hs; cases hs
  | cons a M ih =>
    intro s hs
    rw [List.map_cons, lookupAssigned_cons]
    by_cases ha : a = s
    · subst ha
      rw [if_pos rfl]
    · have hmem : s ∈ M := by
        cases List.mem_cons.mp hs with
        | inl h => exact absurd h.symm ha
        | inr h => exact h
      rw [if_neg (by simp [ha]), ih s hmem]

/-- Looking a key up on the left part of an appended association list. -/
theorem lookup_append_of_some {α : Type} (l1 l2 : List (Id × α)) (k : Id) (v : α)
    (h : List.lookup k l1 = some v) : List.lookup k (l1 ++ l2) = some v := by
  induction l1 with
  | nil => simp [List.lookup] at h
  | cons x l1 ih =>
    obtain ⟨k1, v1⟩ := x
    rw [List.cons_append]
    cases hk : (k == k1) with
    | true =>
      simp [List.lookup, hk] at h ⊢
      exact h
    | false =>
      simp only [List.lookup, hk] at h ⊢
      exact ih h

/-- Looking a key up past the left part of an appended association list. -/
theorem lookup_append_of_none {α : Type} (l1 l2 : List (Id × α)) (k : Id)
    (h : List.lookup k l1 = none) : List.lookup k (l1 ++ l2) = List.lookup k l2 := by
  induction l1 with
  | nil => rfl
  | cons x l1 ih =>
    obtain ⟨k1, v1⟩ := x
    rw [List.cons_append]
    cases hk : (k == k1) with
    | true => simp [List.lookup, hk] at h
    | false =>
      simp only [List.lookup, hk] at h ⊢
      exact ih h

/-- Looking up a member of a keyed map built over `L`. -/
theorem lookup_keyed_map {α : Type} (F : Id → α) :
    ∀ (L : List Id) (s : Id), s ∈ L →
    List.lookup s (L.map fun x => (x, F x)) = some (F s) := by
  intro L
  induction L with
  | nil => intro s hs; cases hs
  | cons a L ih =>
    intro s hs
    rw [List.map_cons]
    by_cases ha : a = s
    · subst ha
      simp [List.lookup]
    · have hk : (s == a) = false := by
        simp
        exact fun h => ha h.symm
      simp only [List.lookup, hk]
      have hmem : s ∈ L := by
        cases List.mem_cons.mp hs with
        | inl h => exact absurd h.symm ha
        | inr h => exact h
      exact ih s hmem

/-- Looking up a missing key in a keyed map built over `L`. -/
theorem lookup_keyed_map_none {α : Type} (F : Id → α) :
    ∀ (L : List Id) (s : Id), s ∉ L →
    List.lookup s (L.map fun x => (x, F x)) = none := by
  intro L
  induction L with
  | nil => intro s _; rfl
  | cons a L ih =>
    intro s hs
    rw [List.map_cons]
    have hk : (s == a) = false := by
      simp
      exact fun h => hs (h ▸ List.mem_cons_self a L)
    simp only [List.lookup, hk]
    exact ih s (fun h => hs (List.mem_cons_of_mem a h))

/-- The incoming-neighbor list induced by the star edge set: everything for
the destination `d`, nothing for any other node. -/
theorem star_edges_incoming (d x : Id) :
    ∀ (L : List Id),
    (((L.map fun s => Connection.ofIds s d).filter
        (fun c => c.destination.dspId == x)).map fun c => c.source.dspId)
      = if d = x then L else [] := by
  intro L
  induction L with
  | nil => simp
  | cons a L ih =>
    rw [List.map_cons]
    by_cases hdx : d = x
    · have hc : (((Connection.ofIds a d).destination.dspId == x) : Bool) = true := by
        simp [Connection.ofIds, hdx]
      rw [@List.filter_cons_of_pos _ (fun c => c.destination.dspId == x)
        (Connection.ofIds a d) (L.map fun s => Connection.ofIds s d) hc]
      rw [List.map_cons, ih, if_pos hdx, if_pos hdx]
      rfl
    · have hc : (((Connection.ofIds a d).destination.dspId == x) : Bool) = false := by
        simp [Connection.ofIds]
        exact hdx
      rw [@List.filter_cons_of_neg _ (fun c => c.destination.dspId == x)
        (Connection.ofIds a d) (L.map fun s => Connection.ofIds s d) (by simp [hc])]
      rw [ih, if_neg hdx, if_neg hdx]

/-- Mapping two pointwise-equal functions over a list gives the same
list. -/
theorem map_eq_of_mem {α β : Type} (l : List α) (f g : α → β) (h : ∀ a ∈ l, f a = g a) :
    l.map f = l.map g := by
  induction l with
  | nil => rfl
  | cons a l ih =>
    rw [List.map_cons, List.map_cons, h a (List.mem_cons_self a l),
      ih (fun b hb => h b (List.mem_cons_of_mem a hb))]

/-- `DspGraph::process` on a clean (already sorted) graph, stated as an
explicit equation when the node processing succeeds. -/
theorem process_eq_some {S : Type} (g : DspGraph S) (st : S) (out : AudioBuf) (t : ℚ)
    (pool1 : BufferPool) (st1 : S) (hg : g.graphNeedsSort = false)
    (hp : processDsps g.pool g st (min out.numFrames g.maximumNumberOfFrames)
      (min out.numChannels g.maximumNumberOfChannels) t = some (pool1, st1)) :
    g.process st out t = some
      ({ g with pool := (writeToOutput pool1 g out.data
            (min out.numChannels g.maximumNumberOfChannels)
            (min out.numFrames g.maximumNumberOfFrames)).1.clearAssignments },
       st1,
       { out with data := (writeToOutput pool1 g out.data
            (min out.numChannels g.maximumNumberOfChannels)
            (min out.numFrames g.maximumNumberOfFrames)).2 }) := by
  have hsg : g.sortGraph = g := by
    unfold DspGraph.sortGraph
    rw [hg]
    simp
  simp only [DspGraph.process, hsg]
  rw [hp]

/-- In the star graph, a source node has no incoming edge. -/
theorem mixGraph_incoming_src (sources : List Id) (d : Id) (B : Id → Buf) (mc mf sr : Nat)
    (s : Id) (hne : d ≠ s) :
    (mixGraph sources d B mc mf sr).incomingNodes s = [] := by
  simp only [DspGraph.incomingNodes, mixGraph]
  rw [star_edges_incoming d s sources, if_neg hne]

/-- In the star graph, the destination's incoming neighbors are exactly the
sources, in order. -/
theorem mixGraph_incoming_dest (sources : List Id) (d : Id) (B : Id → Buf) (mc mf sr : Nat) :
    (mixGraph sources d B mc mf sr).incomingNodes d = sources := by
  simp only [DspGraph.incomingNodes, mixGraph]
  rw [star_edges_incoming d d sources, if_pos rfl]

/-- In the star graph, looking up a source id yields its source node. -/
theorem mixGraph_getNode_src (sources : List Id) (d : Id) (B : Id → Buf) (mc mf sr : Nat)
    (s : Id) (hs : s ∈ sources) :
    (mixGraph sources d B mc mf sr).getNode s = some (srcDsp s (B s)) := by
  simp only [DspGraph.getNode, mixGraph]
  exact lookup_append_of_some _ _ _ _
    (lookup_keyed_map (fun x => srcDsp x (B x)) sources s hs)

/-- In the star graph, looking up the destination yields the mixer node. -/
theorem mixGraph_getNode_dest (sources : List Id) (d : Id) (B : Id → Buf) (mc mf sr : Nat)
    (hd : d ∉ sources) :
    (mixGraph sources d B mc mf sr).getNode d = some (sumDsp d) := by
  simp only [DspGraph.getNode, mixGraph]
  rw [lookup_append_of_none _ _ _
    (lookup_keyed_map_none (fun x => srcDsp x (B x)) sources d hd)]
  simp [List.lookup]

/-- Processing a list of dependency-free source nodes: every node takes two
buffers, renders its fixed contents and leaves them tagged with its output
endpoint; the tags accumulate (in reverse processing order) in front of the
previous assignments and each node consumes one free slot net. -/
theorem processList_sources (g : DspGraph Unit) (B : Id → Buf) (nfr nch : Nat) (t : ℚ) :
    ∀ (L : List Id) (pool : BufferPool),
    (∀ s ∈ L, g.incomingNodes s = [] ∧ g.getNode s = some (srcDsp s (B s))) →
    L.length + 1 ≤ pool.free.length →
    ∃ pool1, processList g nfr nch t L pool () = some (pool1, ()) ∧
      pool1.free.length = pool.free.length - L.length ∧
      pool1.assigned = (L.reverse.map fun s =>
        ((⟨s, EndpointType.output⟩ : Endpoint), tagOf B nfr s)) ++ pool.assigned := by
  intro L
  induction L with
  | nil =>
    intro pool hfacts hlen
    exact ⟨pool, rfl, by simp, by simp⟩
  | cons s L ih =>
    intro pool hfacts hlen
    rcases hf : pool.free with _ | ⟨b1, r1⟩
    · rw [hf] at hlen; simp at hlen
    rcases hr1 : r1 with _ | ⟨b2, rest⟩
    · rw [hf, hr1] at hlen; simp at hlen
    have hf2 : pool.free = b1 :: b2 :: rest := by rw [hf, hr1]
    have hsfacts := hfacts s (List.mem_cons_self s L)
    have hstep : processList g nfr nch t (s :: L) pool ()
        = processList g nfr nch t L
            ⟨zeroBuf :: rest,
             ((⟨s, EndpointType.output⟩ : Endpoint), tagOf B nfr s) :: pool.assigned,
             pool.capacity⟩ () := by
      unfold processList
      rw [List.foldl_cons]
      simp only [Option.some_bind]
      rw [processDsp_step pool g () s nfr nch t b1 b2 rest hf2]
      simp only [copyOutputFromDependencies, hsfacts.1, List.foldl_nil, hsfacts.2, srcDsp,
        BufferPool.returnBuffer, BufferPool.returnBufferWithAssignment]
      rfl
    rw [hstep]
    have hlen2 : L.length + 1 ≤ (⟨zeroBuf :: rest,
        ((⟨s, EndpointType.output⟩ : Endpoint), tagOf B nfr s) :: pool.assigned,
        pool.capacity⟩ : BufferPool).free.length := by
      simp only [List.length_cons]
      rw [hf2] at hlen
      simp only [List.length_cons] at hlen
      omega
    obtain ⟨pool1, hpl1, hlen1, hasg1⟩ := ih _ (fun s2 hs2 => hfacts s2 (List.mem_cons_of_mem s hs2)) hlen2
    refine ⟨pool1, hpl1, ?_, ?_⟩
    · rw [hlen1]
      simp only [hf2, List.length_cons]
      omega
    · rw [hasg1]
      simp [List.reverse_cons, List.map_append, List.append_assoc]

/-- Running `process_dsps` on the star graph: the sources render and tag
their buffers, the destination mixes every tagged source buffer into its
input and leaves its own tagged output, whose contents on the rendered
region are exactly the pointwise sum of the source contents. -/
theorem mixGraph_processDsps (sources : List Id) (d : Id) (B : Id → Buf) (mc mf sr : Nat)
    (hd : d ∉ sources) (nfr nch : Nat) (t : ℚ) :
    ∃ p3 bD, processDsps (mixGraph sources d B mc mf sr).pool (mixGraph sources d B mc mf sr)
        () nfr nch t = some (p3, ()) ∧
      lookupAssigned p3.assigned ⟨d, EndpointType.output⟩ = some bD ∧
      ∀ ch fr, ch < nch → fr < nfr → bD ch fr = (sources.map fun s => B s ch fr).sum := by
  have hfacts : ∀ s ∈ sources, (mixGraph sources d B mc mf sr).incomingNodes s = [] ∧
      (mixGraph sources d B mc mf sr).getNode s = some (srcDsp s (B s)) := by
    intro s hs
    have hne : d ≠ s := fun h => hd (h ▸ hs)
    exact ⟨mixGraph_incoming_src sources d B mc mf sr s hne,
      mixGraph_getNode_src sources d B mc mf sr s hs⟩
  have hlen : sources.length + 1 ≤ (mixGraph sources d B mc mf sr).pool.free.length := by
    simp [mixGraph, freshPool]
  obtain ⟨pool1, hpl1, hlen1, hasg1⟩ :=
    processList_sources (mixGraph sources d B mc mf sr) B nfr nch t sources
      (mixGraph sources d B mc mf sr).pool hfacts hlen
  have hfree1 : pool1.free.length = 2 := by
    rw [hlen1]
    simp [mixGraph, freshPool]
  obtain ⟨b1, b2, hf2⟩ := List.length_eq_two.mp hfree1
  have hasg2 : pool1.assigned = sources.reverse.map fun s =>
      ((⟨s, EndpointType.output⟩ : Endpoint), tagOf B nfr s) := by
    rw [hasg1]
    have hpa : (mixGraph sources d B mc mf sr).pool.assigned = [] := rfl
    rw [hpa, List.append_nil]
  have hT : ∀ s ∈ sources,
      lookupAssigned ((⟨([] : List Buf), pool1.assigned, pool1.capacity⟩ :
        BufferPool)).assigned ⟨s, EndpointType.output⟩ = some (tagOf B nfr s) := by
    intro s hs
    show lookupAssigned pool1.assigned _ = _
    rw [hasg2]
    exact lookupAssigned_tagList (tagOf B nfr) sources.reverse s (List.mem_reverse.mpr hs)
  have hmixd := mixList_data (tagOf B nfr) nch nfr sources
    (⟨([] : List Buf), pool1.assigned, pool1.capacity⟩ : BufferPool) zeroBuf hT
  set M := mixList nch nfr sources
    (⟨([] : List Buf), pool1.assigned, pool1.capacity⟩ : BufferPool) zeroBuf with hMdef
  have hdsps : processList (mixGraph sources d B mc mf sr) nfr nch t (sources ++ [d])
      (mixGraph sources d B mc mf sr).pool ()
      = some ((M.1.returnBuffer M.2).returnBufferWithAssignment
          (fun ch fr => if fr < nfr then M.2 ch fr else 0) ⟨d, EndpointType.output⟩, ()) := by
    rw [processList_append, hpl1]
    simp only [Option.some_bind]
    simp only [processList, List.foldl_cons, List.foldl_nil, Option.some_bind]
    rw [processDsp_step pool1 (mixGraph sources d B mc mf sr) () d nfr nch t b1 b2 [] hf2]
    simp only [copyOutputFromDependencies_eq_mixList, mixGraph_incoming_dest,
      mixGraph_getNode_dest sources d B mc mf sr hd, sumDsp]
  have hlook : lookupAssigned ((M.1.returnBuffer M.2).returnBufferWithAssignment
      (fun ch fr => if fr < nfr then M.2 ch fr else 0) ⟨d, EndpointType.output⟩).assigned
      ⟨d, EndpointType.output⟩
      = some (fun ch fr => if fr < nfr then M.2 ch fr else 0) := by
    simp only [BufferPool.returnBufferWithAssignment, BufferPool.returnBuffer]
    rw [lookupAssigned_cons, if_pos rfl]
  have hval : ∀ ch fr, ch < nch → fr < nfr →
      (fun ch fr => if fr < nfr then M.2 ch fr else 0) ch fr
        = (sources.map fun s => B s ch fr).sum := by
    intro ch fr hch hfr
    simp only
    rw [if_pos hfr]
    have h2 := hmixd.2.2 ch fr
    rw [h2, if_pos ⟨hch, hfr⟩]
    have hz : zeroBuf ch fr = 0 := rfl
    rw [hz, zero_add]
    have hcong : (sources.map fun s => tagOf B nfr s ch fr)
        = sources.map fun s => B s ch fr :=
      map_eq_of_mem sources _ _ (fun s _ => by unfold tagOf; rw [if_pos hfr])
    rw [hcong]
  exact ⟨_, _, hdsps, hlook, hval⟩

/-- Claim C5: rendering a graph in which every node of `sources` is
connected into the one destination `d` (itself connected to the output)
adds, at every rendered channel and frame, exactly the pointwise sum of the
source renders to the external buffer; and, in general, mixing a tagged
buffer into a consumer with `mix_in_endpoint` does not consume its tag
(every tag lookup is preserved), which is what lets one source feed several
consumers. -/
theorem dspGraph_sums_connected_sources (sources : List Id) (d : Id) (B : Id → Buf)
    (out : AudioBuf) (t : ℚ) (mc mf sr : Nat) (hd : d ∉ sources) :
    (∃ r, (mixGraph sources d B mc mf sr).process () out t = some r ∧
      ∀ ch fr, ch < min out.numChannels mc → fr < min out.numFrames mf →
        r.2.2.data ch fr = out.data ch fr + (sources.map fun s => B s ch fr).sum) ∧
    (∀ (pool : BufferPool) (e : Endpoint) (o : Buf) (nch nfr : Nat) (b : Buf),
      lookupAssigned pool.assigned e = some b →
      lookupAssigned (mixInEndpoint pool e o nch nfr).1.assigned e = some b) := by
  constructor
  · obtain ⟨p3, bD, hdsps, hlook, hval⟩ := mixGraph_processDsps sources d B mc mf sr hd
      (min out.numFrames mf) (min out.numChannels mc) t
    have hp : processDsps (mixGraph sources d B mc mf sr).pool
        (mixGraph sources d B mc mf sr) ()
        (min out.numFrames (mixGraph sources d B mc mf sr).maximumNumberOfFrames)
        (min out.numChannels (mixGraph sources d B mc mf sr).maximumNumberOfChannels) t
        = some (p3, ()) := hdsps
    have hproc := process_eq_some (mixGraph sources d B mc mf sr) () out t p3 () rfl hp
    refine ⟨_, hproc, ?_⟩
    intro ch fr hch hfr
    show (writeToOutput p3 (mixGraph sources d B mc mf sr) out.data
        (min out.numChannels mc) (min out.numFrames mf)).2 ch fr
      = out.data ch fr + (sources.map fun s => B s ch fr).sum
    unfold writeToOutput
    have hout : (mixGraph sources d B mc mf sr).outputEndpoint
        = some ⟨d, EndpointType.output⟩ := rfl
    rw [hout]
    show (mixInEndpoint p3 ⟨d, EndpointType.output⟩ out.data
        (min out.numChannels mc) (min out.numFrames mf)).2 ch fr = _
    rw [(mixInEndpoint_of_lookup p3 ⟨d, EndpointType.output⟩ out.data
        (min out.numChannels mc) (min out.numFrames mf) bD hlook).1]
    unfold addFrom
    rw [if_pos ⟨hch, hfr⟩, hval ch fr hch hfr]
  · intro pool e o nch nfr b h
    rw [(mixInEndpoint_of_lookup pool e o nch nfr b h).2.2 e]
    exact h

/-- An all-ones buffer, used by the C5 witness. -/
def onesBuf : Buf := fun _ _ => 1

/-- Witness for C5: two all-ones sources into one destination, on a
concrete two-channel buffer. -/
theorem dspGraph_sums_connected_sources_witness :
    ((2 : Id) ∉ ([0, 1] : List Id)) ∧
    ((∃ r, (mixGraph [0, 1] 2 (fun _ => onesBuf) 2 512 44100).process () exampleOut (0 : ℚ)
        = some r ∧
      ∀ ch fr, ch < min exampleOut.numChannels 2 → fr < min exampleOut.numFrames 512 →
        r.2.2.data ch fr
          = exampleOut.data ch fr + (([0, 1] : List Id).map fun _ => onesBuf ch fr).sum) ∧
     (∀ (pool : BufferPool) (e : Endpoint) (o : Buf) (nch nfr : Nat) (b : Buf),
      lookupAssigned pool.assigned e = some b →
      lookupAssigned (mixInEndpoint pool e o nch nfr).1.assigned e = some b)) :=
  ⟨by decide,
    dspGraph_sums_connected_sources [0, 1] 2 (fun _ => onesBuf) exampleOut 0 2 512 44100
      (by decide)⟩

end AudioEngine
